import Mathlib

/-!
Verification of the media-processing and decision-aggregation pipeline
behind `src/main.py` (FastAPI orchestration over a detector module).

The shallow embedding below mirrors the source: the shared mutable
record `processing_status` becomes the structure `ProcessingStatus`,
each in-place mutation of the record in `main.py` becomes a function
from `ProcessingStatus` to `ProcessingStatus`, and a run of the
endpoint becomes the list of successive values taken by the record.
Parts of the pipeline that live in the detector module (not present in
the sources) are modelled from the specification and are marked as
such in their doc comments.
-/

/-- The shared mutable status record `processing_status` of `main.py`,
lines 37 to 42: fields `is_processing`, `progress`, `total_frames`,
`current_frame`. -/
structure ProcessingStatus where
  is_processing : Bool
  progress : Nat
  total_frames : Nat
  current_frame : Nat
deriving Repr, DecidableEq

/-- The initial value of `processing_status` in `main.py`: all flags
false and all counters zero. -/
def initialStatus : ProcessingStatus :=
  { is_processing := false, progress := 0, total_frames := 0, current_frame := 0 }

/-- The group write at `main.py` line 72, executed at video-job start:
`processing_status.update` with `is_processing` true, `progress` 0 and
`current_frame` 0.  It does not touch `total_frames`. -/
def startWrite (s : ProcessingStatus) : ProcessingStatus :=
  { s with is_processing := true, progress := 0, current_frame := 0 }

/-- The group write at `main.py` line 77, executed after a successful
video job: `is_processing` false and `progress` 100. -/
def finishWrite (s : ProcessingStatus) : ProcessingStatus :=
  { s with is_processing := false, progress := 100 }

/-- The write at `main.py` line 92, executed in the exception handler:
only `is_processing` is set to false. -/
def errorWrite (s : ProcessingStatus) : ProcessingStatus :=
  { s with is_processing := false }

/-- Modelled from the spec: `processVideo` determines the total frame
count up front and records it in the status sink (the detector module
holding `process_video` is not among the sources). -/
def setTotal (n : Nat) (s : ProcessingStatus) : ProcessingStatus :=
  { s with total_frames := n }

/-- Modelled from the spec: the per-frame progress write of
`processVideo` — one update per processed frame, in frame order,
setting the done counter. -/
def frameWrite (i : Nat) (s : ProcessingStatus) : ProcessingStatus :=
  { s with current_frame := i }

/-- Modelled from the spec: the frame loop of `processVideo`, which for
each frame `i` of the source (in order) performs one status write
setting the done counter to `i + 1`.  Returns the list of successive
status values together with the final status. -/
def frameLoop (s : ProcessingStatus) (n i : Nat) : List ProcessingStatus × ProcessingStatus :=
  if h : i < n then
    let s' := frameWrite (i + 1) s
    let r := frameLoop s' n (i + 1)
    (s' :: r.1, r.2)
  else ([], s)
termination_by n - i
decreasing_by simp_wf; omega

/-- The successive values of `processing_status` during a successful
video job with `n` frames: the start write of line 72, then (modelled
from the spec) the total-frames write and one write per frame from
`process_video`, then the finish write of line 77. -/
def videoJobTrace (s0 : ProcessingStatus) (n : Nat) : List ProcessingStatus :=
  let s1 := startWrite s0
  let s2 := setTotal n s1
  let r := frameLoop s2 n 0
  s1 :: s2 :: (r.1 ++ [finishWrite r.2])

/-- The successive values of `processing_status` during a video job of
`n` frames that raises after `k` completed frames: the start write,
the total-frames write, `k` per-frame writes, then the exception
handler write of line 92. -/
def videoErrTrace (s0 : ProcessingStatus) (n k : Nat) : List ProcessingStatus :=
  let s1 := startWrite s0
  let s2 := setTotal n s1
  let r := frameLoop s2 k 0
  s1 :: s2 :: (r.1 ++ [errorWrite r.2])

/-! ## Media-type dispatch (`main.py` lines 59 to 63, 70, 80) -/

/-- Index of the last occurrence of a character in a list, if any. -/
def rfindIdx (c : Char) : List Char → Option Nat
  | [] => none
  | a :: rest =>
    match rfindIdx c rest with
    | some i => some (i + 1)
    | none => if a = c then some 0 else none

/-- The extension part of `os.path.splitext`: the suffix from the last
dot of the final path component, unless every character of that
component before the dot is itself a dot (leading-dot names such as
`.bashrc` have no extension). -/
def splitextExt (p : List Char) : List Char :=
  let fnameIdx : Nat :=
    match rfindIdx '/' p with
    | none => 0
    | some k => k + 1
  match rfindIdx '.' p with
  | none => []
  | some dotIdx =>
    if fnameIdx ≤ dotIdx ∧
        ((p.drop fnameIdx).take (dotIdx - fnameIdx)).any (fun ch => ch ≠ '.') then
      p.drop dotIdx
    else []

/-- `os.path.splitext(file.filename)[1].lower()` from `main.py`
line 61. -/
def extLower (filename : String) : String :=
  String.mk ((splitextExt filename.data).map Char.toLower)

/-- The video-extension list of `main.py` line 62. -/
def videoExts : List String := [".mp4", ".avi", ".mov", ".mkv"]

/-- `is_video` from `main.py` line 62: the lowercased extension is one
of `.mp4`, `.avi`, `.mov`, `.mkv`. -/
def is_video (filename : String) : Bool :=
  videoExts.contains (extLower filename)

/-- The output file name chosen by the endpoint (`main.py` lines 70
and 80): `processed_<id>.mp4` for videos, `processed_<id>.jpg`
otherwise. -/
def output_filename (filename fileId : String) : String :=
  if is_video filename then "processed_" ++ fileId ++ ".mp4"
  else "processed_" ++ fileId ++ ".jpg"

/-! ## Shape of the frame loop -/

lemma frameWrite_frameWrite (j k : Nat) (s : ProcessingStatus) :
    frameWrite j (frameWrite k s) = frameWrite j s := rfl

lemma frameLoop_eq_aux (d : Nat) :
    ∀ (s : ProcessingStatus) (n i : Nat), n - i ≤ d →
      frameLoop s n i =
        ((List.range' (i + 1) (n - i)).map (fun j => frameWrite j s),
          if i < n then frameWrite n s else s) := by
  induction d with
  | zero =>
    intro s n i h
    have hni : ¬ i < n := by omega
    have h0 : n - i = 0 := by omega
    rw [frameLoop]
    simp [hni, h0]
  | succ d ih =>
    intro s n i h
    rw [frameLoop]
    by_cases hi : i < n
    · simp only [hi, dif_pos]
      rw [ih (frameWrite (i + 1) s) n (i + 1) (by omega)]
      have hn : n - i = (n - (i + 1)) + 1 := by omega
      rw [hn, List.range'_succ (i + 1) (n - (i + 1)) 1]
      by_cases h2 : i + 1 < n
      · simp [h2, hi, frameWrite_frameWrite]
      · have hEq : n = i + 1 := by omega
        simp [h2, hi, hEq, frameWrite_frameWrite]
    · have h0 : n - i = 0 := by omega
      simp [hi, h0]

lemma frameLoop_eq (s : ProcessingStatus) (n i : Nat) :
    frameLoop s n i =
      ((List.range' (i + 1) (n - i)).map (fun j => frameWrite j s),
        if i < n then frameWrite n s else s) :=
  frameLoop_eq_aux (n - i) s n i (Nat.le_refl _)

lemma chain'_le_range' (n : Nat) : ∀ a : Nat, List.Chain' (· ≤ ·) (List.range' a n) := by
  induction n with
  | zero => intro a; simp
  | succ n ih =>
    intro a
    rw [List.range'_succ a n 1]
    refine List.chain'_cons'.mpr ⟨?_, ih (a + 1)⟩
    intro y hy
    cases n with
    | zero => simp at hy
    | succ m =>
      rw [List.range'_succ (a + 1) m 1] at hy
      simp at hy
      omega

lemma getLast?_cons_cons_concat (a b : ProcessingStatus) (l : List ProcessingStatus)
    (x : ProcessingStatus) : (a :: b :: (l ++ [x])).getLast? = some x := by
  rw [show a :: b :: (l ++ [x]) = (a :: b :: l) ++ [x] by simp]
  exact List.getLast?_concat _

lemma videoJobTrace_map_current (s0 : ProcessingStatus) (n : Nat) :
    (videoJobTrace s0 n).map (fun s => s.current_frame)
      = 0 :: 0 :: (List.range' 1 n ++ [n]) := by
  simp only [videoJobTrace]
  rw [frameLoop_eq]
  by_cases hn : 0 < n
  · simp [hn, startWrite, setTotal, frameWrite, finishWrite, List.map_map, Function.comp]
    exact List.map_id _
  · have h0 : n = 0 := by omega
    subst h0
    simp [startWrite, setTotal, finishWrite]

lemma chain'_le_zero_zero_range (n : Nat) :
    List.Chain' (· ≤ ·) (0 :: 0 :: (List.range' 1 n ++ [n])) := by
  have hsucc : (0 : Nat) :: List.range' 1 n = List.range' 0 (n + 1) :=
    (List.range'_succ 0 n 1).symm
  rw [show (0 : Nat) :: 0 :: (List.range' 1 n ++ [n])
        = 0 :: ((0 :: List.range' 1 n) ++ [n]) by simp]
  rw [hsucc]
  refine List.chain'_cons'.mpr ⟨fun y _ => Nat.zero_le y, ?_⟩
  refine List.chain'_append.mpr ⟨chain'_le_range' (n + 1) 0, List.chain'_singleton n, ?_⟩
  intro x hx y hy
  have hconcat : List.range' 0 (n + 1) = List.range' 0 n ++ [0 + n] :=
    List.range'_1_concat 0 n
  rw [hconcat, List.getLast?_concat] at hx
  simp at hx hy
  omega

/-- C1: for every video job of `n` frames, the `current_frame` counter
in the shared status record takes the values 0, 0, 1, 2, ..., n along
the job trace — monotonically from 0 to `n`, in frame order — and the
final record of the trace shows the job finished: `is_processing`
false, `progress` 100 and the done counter equal to `n`. -/
theorem video_progress_monotone_and_final (s0 : ProcessingStatus) (n : Nat) :
    (videoJobTrace s0 n).map (fun s => s.current_frame)
        = 0 :: 0 :: (List.range' 1 n ++ [n]) ∧
    List.Chain' (fun a b => a.current_frame ≤ b.current_frame) (videoJobTrace s0 n) ∧
    ∃ f, (videoJobTrace s0 n).getLast? = some f ∧
      f.is_processing = false ∧ f.progress = 100 ∧ f.current_frame = n ∧
      f.total_frames = n := by
  refine ⟨videoJobTrace_map_current s0 n, ?_, ?_⟩
  · have hmap := videoJobTrace_map_current s0 n
    have hch : List.Chain' (· ≤ ·)
        ((videoJobTrace s0 n).map (fun s => s.current_frame)) := by
      rw [hmap]; exact chain'_le_zero_zero_range n
    exact (List.chain'_map (fun s : ProcessingStatus => s.current_frame)).mp hch
  · refine ⟨finishWrite (frameLoop (setTotal n (startWrite s0)) n 0).2, ?_, rfl, rfl, ?_, ?_⟩
    · simp only [videoJobTrace]
      exact getLast?_cons_cons_concat _ _ _ _
    · rw [frameLoop_eq]
      by_cases hn : 0 < n
      · simp [hn, finishWrite, frameWrite]
      · have h0 : n = 0 := by omega
        subst h0
        simp [finishWrite, setTotal, startWrite]
    · rw [frameLoop_eq]
      by_cases hn : 0 < n
      · simp [hn, finishWrite, frameWrite, setTotal]
      · have h0 : n = 0 := by omega
        subst h0
        simp [finishWrite, setTotal, startWrite]

/-- C10: the job-start write of `main.py` line 72 is one group write
that sets `is_processing` true and resets `progress` and
`current_frame` to 0, but leaves `total_frames` at the value of the
previous job; it is the first status value of the video-job trace, so
a read taken between job start and the first `total_frames` write of
the pipeline observes the previous value of `total_frames`. -/
theorem job_start_write_keeps_total (s0 : ProcessingStatus) (n : Nat) :
    (startWrite s0).is_processing = true ∧
    (startWrite s0).progress = 0 ∧
    (startWrite s0).current_frame = 0 ∧
    (startWrite s0).total_frames = s0.total_frames ∧
    (videoJobTrace s0 n).head? = some (startWrite s0) :=
  ⟨rfl, rfl, rfl, rfl, rfl⟩

/-- C9: the media type is decided solely by the lowercased filename
extension — a file is treated as a video exactly when that extension
is one of `.mp4`, `.avi`, `.mov`, `.mkv`; two filenames with the same
lowercased extension are dispatched the same way; and for every
non-video input the output file name is `processed_<id>.jpg`,
independent of the input extension. -/
theorem media_type_by_extension (f g fileId : String) :
    (is_video f = true ↔ extLower f ∈ videoExts) ∧
    (extLower f = extLower g → is_video f = is_video g) ∧
    (is_video f = false → output_filename f fileId = "processed_" ++ fileId ++ ".jpg") := by
  refine ⟨?_, ?_, ?_⟩
  · simp [is_video]
  · intro h
    simp [is_video, h]
  · intro h
    simp [output_filename, h]

/-- Concrete instantiation of `media_type_by_extension`: an uppercase
video extension is dispatched as video, a `.png` file as image with a
`.jpg` output name, and the dispatch of two same-extension names
agrees. -/
theorem media_type_by_extension_witness :
    (is_video "clip.MP4" = true) ∧
    (is_video "photo.png" = false) ∧
    (output_filename "photo.png" "id0" = "processed_id0.jpg") ∧
    (is_video "a.mkv" = is_video "b.MKV") := by
  refine ⟨?_, by decide, ?_, ?_⟩
  · exact (media_type_by_extension "clip.MP4" "clip.MP4" "id0").1.mpr (by decide)
  · exact (media_type_by_extension "photo.png" "photo.png" "id0").2.2 (by decide)
  · exact ((media_type_by_extension "a.mkv" "b.MKV" "id0").2.1 (by decide)).symm ▸ rfl

/-! ## The endpoint responses (`main.py` lines 68 to 93) -/

/-- The two JSON bodies returned by `process_media_endpoint`: the
success record of lines 85 to 90 (fields `status`, `media_url`,
`final_decision`, `media_type`) and the error record of line 93
(fields `status` and `message`). -/
inductive EndpointResponse where
  | ok (status media_url final_decision media_type : String)
  | err (status message : String)
deriving Repr, DecidableEq

/-- Outcome of the call into the detector module made by the
endpoint: a video run that returns a decision after writing `n`
per-frame updates, a video run that raises after `k` of `n` frames,
an image run that returns a decision, or an image run that raises.
The raised message is what `str(e)` yields in `main.py` line 93. -/
inductive PipelineRun where
  | vidOk (n : Nat) (decision : String)
  | vidErr (n k : Nat) (msg : String)
  | imgOk (decision : String)
  | imgErr (msg : String)

/-- The body of `process_media_endpoint` (`main.py` lines 68 to 93)
as a function from the prior status-record value and the pipeline
outcome to the returned JSON body and the successive values of the
shared status record. -/
def process_media_endpoint (s0 : ProcessingStatus) (fileId : String) :
    PipelineRun → EndpointResponse × List ProcessingStatus
  | .vidOk n d =>
    (.ok "success" ("/outputs/processed_" ++ fileId ++ ".mp4") d "video",
      videoJobTrace s0 n)
  | .vidErr n k m => (.err "error" m, videoErrTrace s0 n k)
  | .imgOk d =>
    (.ok "success" ("/outputs/processed_" ++ fileId ++ ".jpg") d "image", [])
  | .imgErr m => (.err "error" m, [errorWrite s0])

/-- C2: every request whose pipeline call raises — video or image —
returns the structured error body of `main.py` line 93, carrying the
kind field `status = error` together with the exception message, and
the last write to the shared status record before returning leaves
`is_processing` false. -/
theorem error_response_structured (s0 : ProcessingStatus) (fileId m : String) (n k : Nat) :
    ((process_media_endpoint s0 fileId (.vidErr n k m)).1 = .err "error" m ∧
      ∃ f, (s0 :: (process_media_endpoint s0 fileId (.vidErr n k m)).2).getLast? = some f ∧
        f.is_processing = false) ∧
    ((process_media_endpoint s0 fileId (.imgErr m)).1 = .err "error" m ∧
      ∃ f, (s0 :: (process_media_endpoint s0 fileId (.imgErr m)).2).getLast? = some f ∧
        f.is_processing = false) := by
  refine ⟨⟨rfl, ?_⟩, ⟨rfl, ?_⟩⟩
  · refine ⟨errorWrite (frameLoop (setTotal n (startWrite s0)) k 0).2, ?_, rfl⟩
    show (s0 :: startWrite s0 :: setTotal n (startWrite s0) ::
        ((frameLoop (setTotal n (startWrite s0)) k 0).1 ++
          [errorWrite (frameLoop (setTotal n (startWrite s0)) k 0).2])).getLast?
      = some (errorWrite (frameLoop (setTotal n (startWrite s0)) k 0).2)
    rw [show s0 :: startWrite s0 :: setTotal n (startWrite s0) ::
        ((frameLoop (setTotal n (startWrite s0)) k 0).1 ++
          [errorWrite (frameLoop (setTotal n (startWrite s0)) k 0).2])
      = (s0 :: startWrite s0 :: setTotal n (startWrite s0) ::
          (frameLoop (setTotal n (startWrite s0)) k 0).1) ++
        [errorWrite (frameLoop (setTotal n (startWrite s0)) k 0).2] by simp]
    exact List.getLast?_concat _
  · exact ⟨errorWrite s0, rfl, rfl⟩

/-! ## Stability of the status record while idle -/

/-- One step of the C4 invariant: from a record whose running flag is
false, the next write either starts a new job (running becomes true)
or leaves the frame-progress fields untouched. -/
def stableIdle (s s' : ProcessingStatus) : Prop :=
  s.is_processing = false →
    s'.is_processing = true ∨
      (s'.progress = s.progress ∧ s'.current_frame = s.current_frame)

/-- The writes a single request performs on the shared status record,
by pipeline outcome (`main.py` lines 68 to 93: the image path performs
no status write on success and only the handler write on failure). -/
def jobWrites (s0 : ProcessingStatus) : PipelineRun → List ProcessingStatus
  | .vidOk n _ => videoJobTrace s0 n
  | .vidErr n k _ => videoErrTrace s0 n k
  | .imgOk _ => []
  | .imgErr _ => [errorWrite s0]

/-- The successive values of the shared status record across a series
of requests handled one after the other (the single-job assumption of
the spec). -/
def runJobs (s0 : ProcessingStatus) : List PipelineRun → List ProcessingStatus
  | [] => []
  | r :: rest =>
    let tr := jobWrites s0 r
    tr ++ runJobs (tr.getLastD s0) rest

lemma stableIdle_errorWrite (s : ProcessingStatus) : stableIdle s (errorWrite s) :=
  fun _ => Or.inr ⟨rfl, rfl⟩

lemma chain'_stable_of_processing (l : List ProcessingStatus)
    (h : ∀ s ∈ l.dropLast, s.is_processing = true) : List.Chain' stableIdle l := by
  induction l with
  | nil => simp
  | cons a l ih =>
    cases l with
    | nil => simp
    | cons b m =>
      refine List.chain'_cons.mpr ⟨?_, ih ?_⟩
      · intro hfalse
        have ha : a.is_processing = true := by
          apply h
          simp
        rw [ha] at hfalse
        cases hfalse
      · intro s hs
        apply h
        rw [List.dropLast_cons₂]
        exact List.mem_cons_of_mem a hs

lemma processing_mem_frameLoop (s : ProcessingStatus) (k i : Nat) :
    ∀ x ∈ (frameLoop s k i).1, x.is_processing = s.is_processing := by
  rw [frameLoop_eq]
  intro x hx
  simp at hx
  obtain ⟨j, _, rfl⟩ := hx
  rfl

lemma getLast?_cons_getLastD (a : ProcessingStatus) (l : List ProcessingStatus) :
    (a :: l).getLast? = some (l.getLastD a) := by
  induction l generalizing a with
  | nil => rfl
  | cons b m ih =>
    rw [List.getLast?_cons_cons, ih b, List.getLastD_cons]

lemma chain'_job (s0 : ProcessingStatus) (r : PipelineRun) :
    List.Chain' stableIdle (s0 :: jobWrites s0 r) := by
  cases r with
  | vidOk n d =>
    show List.Chain' stableIdle (s0 :: videoJobTrace s0 n)
    simp only [videoJobTrace]
    refine List.chain'_cons'.mpr ⟨?_, ?_⟩
    · intro y hy
      simp at hy
      subst hy
      intro _
      left
      rfl
    · apply chain'_stable_of_processing
      rw [show startWrite s0 :: setTotal n (startWrite s0) ::
            ((frameLoop (setTotal n (startWrite s0)) n 0).1 ++
              [finishWrite (frameLoop (setTotal n (startWrite s0)) n 0).2])
          = (startWrite s0 :: setTotal n (startWrite s0) ::
              (frameLoop (setTotal n (startWrite s0)) n 0).1) ++
            [finishWrite (frameLoop (setTotal n (startWrite s0)) n 0).2] by simp,
        List.dropLast_concat]
      intro x hx
      rcases List.mem_cons.mp hx with rfl | hx
      · rfl
      · rcases List.mem_cons.mp hx with rfl | hx
        · rfl
        · exact processing_mem_frameLoop _ n 0 x hx
  | vidErr n k m =>
    show List.Chain' stableIdle (s0 :: videoErrTrace s0 n k)
    simp only [videoErrTrace]
    refine List.chain'_cons'.mpr ⟨?_, ?_⟩
    · intro y hy
      simp at hy
      subst hy
      intro _
      left
      rfl
    · apply chain'_stable_of_processing
      rw [show startWrite s0 :: setTotal n (startWrite s0) ::
            ((frameLoop (setTotal n (startWrite s0)) k 0).1 ++
              [errorWrite (frameLoop (setTotal n (startWrite s0)) k 0).2])
          = (startWrite s0 :: setTotal n (startWrite s0) ::
              (frameLoop (setTotal n (startWrite s0)) k 0).1) ++
            [errorWrite (frameLoop (setTotal n (startWrite s0)) k 0).2] by simp,
        List.dropLast_concat]
      intro x hx
      rcases List.mem_cons.mp hx with rfl | hx
      · rfl
      · rcases List.mem_cons.mp hx with rfl | hx
        · rfl
        · exact processing_mem_frameLoop _ k 0 x hx
  | imgOk d => simp [jobWrites]
  | imgErr m =>
    show List.Chain' stableIdle (s0 :: [errorWrite s0])
    exact List.chain'_pair.mpr (stableIdle_errorWrite s0)

/-- C4: whenever the running flag of the shared status record is
false, its frame-progress fields receive no further updates until the
next job starts — along any series of requests, every consecutive pair
of status values satisfies `stableIdle`. -/
theorem idle_status_stable (s0 : ProcessingStatus) (runs : List PipelineRun) :
    List.Chain' stableIdle (s0 :: runJobs s0 runs) := by
  induction runs generalizing s0 with
  | nil => simp [runJobs]
  | cons r rest ih =>
    show List.Chain' stableIdle
      (s0 :: (jobWrites s0 r ++ runJobs ((jobWrites s0 r).getLastD s0) rest))
    rw [show s0 :: (jobWrites s0 r ++ runJobs ((jobWrites s0 r).getLastD s0) rest)
        = (s0 :: jobWrites s0 r) ++ runJobs ((jobWrites s0 r).getLastD s0) rest by simp]
    refine List.chain'_append.mpr ⟨chain'_job s0 r, ?_, ?_⟩
    · exact (List.chain'_cons'.mp (ih ((jobWrites s0 r).getLastD s0))).2
    · intro x hx y hy
      rw [getLast?_cons_getLastD] at hx
      have hx' : (jobWrites s0 r).getLastD s0 = x := Option.some.inj hx
      subst hx'
      exact (List.chain'_cons'.mp (ih ((jobWrites s0 r).getLastD s0))).1 y hy

/-! ## Decision aggregation and the image pipeline -/

/-- One detection: class label, confidence score and bounding box
(spec data model; scores kept abstract as naturals). -/
structure Detection where
  cls : String
  score : Nat
  box : Nat × Nat × Nat × Nat
deriving Repr, DecidableEq

/-- One FrameResult: frame index, detections of that frame and the
instantaneous decision computed from that frame alone. -/
structure FrameResult where
  idx : Nat
  detections : List Detection
  decision : String
deriving Repr, DecidableEq

/-- Modelled from the spec: the Decision Aggregator — a pure reduction
of the sequence of per-frame decisions under an injected severity
ordering: the most severe decision wins, ties broken by first
occurrence, and the empty sequence yields the designated no-data
decision (the aggregation logic lives in the detector module, which is
not among the sources). -/
def aggregate (sev : String → Nat) : List String → String
  | [] => "no data"
  | d :: rest => rest.foldl (fun best x => if sev best < sev x then x else best) d

/-- Aggregation over a sequence of FrameResults: reduce their per-frame
decisions. -/
def aggregateResults (sev : String → Nat) (rs : List FrameResult) : String :=
  aggregate sev (rs.map (fun r => r.decision))

/-- C8: the aggregation is deterministic — its result is a pure
function of the per-frame decision sequence alone, so any two runs
over FrameResult sequences carrying the same decisions (regardless of
any other state) yield the same Decision. -/
theorem aggregate_deterministic (sev : String → Nat) (rs rs' : List FrameResult)
    (h : rs.map (fun r => r.decision) = rs'.map (fun r => r.decision)) :
    aggregateResults sev rs = aggregateResults sev rs' := by
  simp only [aggregateResults, h]

/-- Concrete instantiation of `aggregate_deterministic`: two runs over
FrameResult sequences with the same decisions but different frame
indices and detections agree. -/
theorem aggregate_deterministic_witness :
    aggregateResults (fun d => if d = "stop" then 2 else 0)
        [{ idx := 0, detections := [{ cls := "car", score := 9, box := (0, 0, 1, 1) }],
           decision := "stop" }]
      = aggregateResults (fun d => if d = "stop" then 2 else 0)
          [{ idx := 7, detections := [], decision := "stop" }] :=
  aggregate_deterministic (fun d => if d = "stop" then 2 else 0) _ _ rfl

/-- `OUTPUT_DIR` of `main.py` line 27 in local (non-cloud) mode:
`os.path.join` of the base directory and `outputs`. -/
def OUTPUT_DIR : String := "./outputs"

/-- Modelled from the spec: `processImage` — decode the single frame,
detect, annotate, encode to the output path, and aggregate over the
one FrameResult.  The detector adapter and the per-frame decision are
injected as functions; the result is the list of files written and the
returned Decision. -/
def process_image (detect : Nat → List Detection)
    (frameDecision : List Detection → String) (sev : String → Nat)
    (frame : Nat) (outputPath : String) : List String × String :=
  let dets := detect frame
  let fr : FrameResult := { idx := 0, detections := dets, decision := frameDecision dets }
  ([outputPath], aggregateResults sev [fr])

/-- The image branch of `process_media_endpoint` (`main.py` lines 79
to 90): choose the `.jpg` output name, run `process_image`, and return
the success body with the media URL of the written file. -/
def image_job (detect : Nat → List Detection)
    (frameDecision : List Detection → String) (sev : String → Nat)
    (frame : Nat) (fileId : String) : List String × EndpointResponse :=
  let ofn := "processed_" ++ fileId ++ ".jpg"
  let r := process_image detect frameDecision sev frame (OUTPUT_DIR ++ "/" ++ ofn)
  (r.1, .ok "success" ("/outputs/" ++ ofn) r.2 "image")

/-- C6: for every valid single-image input, the image job writes
exactly one output file, returns exactly one Decision — the decision
derived from the single frame — and returns the URL of that one
written file. -/
theorem image_single_output (detect : Nat → List Detection)
    (frameDecision : List Detection → String) (sev : String → Nat)
    (frame : Nat) (fileId : String) :
    (image_job detect frameDecision sev frame fileId).1
        = [OUTPUT_DIR ++ "/" ++ ("processed_" ++ fileId ++ ".jpg")] ∧
    (image_job detect frameDecision sev frame fileId).1.length = 1 ∧
    (image_job detect frameDecision sev frame fileId).2
        = .ok "success" ("/outputs/" ++ ("processed_" ++ fileId ++ ".jpg"))
            (frameDecision (detect frame)) "image" :=
  ⟨rfl, rfl, rfl⟩

/-! ## The live stream session -/

/-- Modelled from the spec: the Live Stream Session loop behind
`generate_frames` and `stop_streaming` (`main.py` lines 99 to 108;
the loop body lives in the detector module, not among the sources).
At each iteration the loop first checks the active flag — which an
external `stop_streaming` call sets to false — and terminates if it is
false; otherwise it decodes, detects, annotates, encodes and yields
frame `i` and proceeds to frame `i + 1`.  The flag is a function of
the iteration index so that an external stop at any moment can be
expressed; `fuel` bounds how many iterations are observed. -/
def generate_frames (active : Nat → Bool) : Nat → Nat → List Nat
  | 0, _ => []
  | fuel + 1, i =>
    if active i then i :: generate_frames active fuel (i + 1) else []

lemma generate_frames_mem (active : Nat → Bool) (fuel : Nat) :
    ∀ i, ∀ j ∈ generate_frames active fuel i, active j = true ∧ i ≤ j := by
  induction fuel with
  | zero => intro i j hj; simp [generate_frames] at hj
  | succ fuel ih =>
    intro i j hj
    by_cases ha : active i
    · simp only [generate_frames, ha, if_true, List.mem_cons] at hj
      rcases hj with rfl | hj
      · exact ⟨ha, Nat.le_refl j⟩
      · obtain ⟨h1, h2⟩ := ih (i + 1) j hj
        exact ⟨h1, by omega⟩
    · simp [generate_frames, ha] at hj

lemma generate_frames_length (active : Nat → Bool) (k : Nat)
    (h : ∀ j, k ≤ j → active j = false) (fuel : Nat) :
    ∀ i, (generate_frames active fuel i).length ≤ k - i := by
  induction fuel with
  | zero => intro i; simp [generate_frames]
  | succ fuel ih =>
    intro i
    by_cases ha : active i
    · have hik : i < k := by
        by_contra hik
        rw [h i (by omega)] at ha
        cases ha
      simp only [generate_frames, ha, if_true, List.length_cons]
      have := ih (i + 1)
      omega
    · simp [generate_frames, ha]

/-- C5: once the external stop signal makes the active flag false from
iteration `k` on, the frame sequence produced by the stream never
processes a frame at or after `k` — every yielded frame was produced
with the flag observed true — and at most `k` frames are yielded in
total, so the sequence terminates at the first false check. -/
theorem stream_stops_after_signal (active : Nat → Bool) (k fuel : Nat)
    (h : ∀ j, k ≤ j → active j = false) :
    (∀ j ∈ generate_frames active fuel 0, active j = true ∧ j < k) ∧
    (generate_frames active fuel 0).length ≤ k := by
  constructor
  · intro j hj
    obtain ⟨h1, _⟩ := generate_frames_mem active fuel 0 j hj
    refine ⟨h1, ?_⟩
    by_contra hjk
    rw [h j (by omega)] at h1
    cases h1
  · have := generate_frames_length active k h fuel 0
    omega

/-- Concrete instantiation of `stream_stops_after_signal`: with a flag
that a stop call turns false from iteration 2 on, the loop yields
frames only while the flag is true and at most 2 of them. -/
theorem stream_stops_after_signal_witness :
    (∀ j ∈ generate_frames (fun j => decide (j < 2)) 10 0,
        (fun j : Nat => decide (j < 2)) j = true ∧ j < 2) ∧
    (generate_frames (fun j => decide (j < 2)) 10 0).length ≤ 2 :=
  stream_stops_after_signal (fun j => decide (j < 2)) 2 10
    (fun j hj => decide_eq_false (by omega))

/-! ## The status query returns the shared record itself -/

/-- The heap fragment relevant to the status endpoint: the single
shared `processing_status` object. -/
structure Heap where
  status : ProcessingStatus
deriving Repr, DecidableEq

/-- References a caller of the status endpoint can receive. -/
inductive ObjRef where
  | statusRef
deriving Repr, DecidableEq

/-- `get_processing_progress` from `main.py` lines 95 to 97: the body
is `return processing_status`, which hands back the shared record
object itself (a reference), not a copy of its contents. -/
def get_processing_progress : ObjRef := ObjRef.statusRef

/-- Observing a returned reference under the heap current at
observation time. -/
def readRef (h : Heap) : ObjRef → ProcessingStatus
  | .statusRef => h.status

/-- C7 counterexample: the value observed through the reference that
`get_processing_progress` returns is changed by a pipeline mutation
performed after the query — at the concrete initial record, a
job-start write followed by a frame write alters what the reader
sees, so the query does not return a snapshot unaffected by
subsequent mutations. -/
theorem status_query_not_snapshot :
    readRef { status := frameWrite 1 (startWrite initialStatus) } get_processing_progress
      ≠ readRef { status := initialStatus } get_processing_progress := by
  decide

/-- C7 amended: the status query returns the raw shared mutable record
itself — under every heap, the value observed through the returned
reference is exactly the current contents of the shared record, and
therefore reflects every pipeline mutation made up to the moment of
observation. -/
theorem status_query_returns_raw_record (h : Heap) :
    readRef h get_processing_progress = h.status := rfl
